import Mathlib

/-!
Shallow embedding of the Twitter_Bot repository: the posting script
(posting_1.py, class TwitterBot) and the Guardian crawler script
(Crawler_code_guardian.py, class GuardianCrawler).

Python strings are modelled as lists of characters (sequences of code
points, exactly as Python len and slicing count them). Fallible calls into
collaborators (browser, HTTP, model service) are modelled as explicit
outcome values; code paths that may raise are modelled in Except, with
try/except blocks made explicit as matches on the Except value.
-/

/-- A Python str value: a sequence of code points. -/
abbrev PyStr := List Char

/-! ## posting_1.py : the posting length guard (run_bot, lines 376-378) -/

/-- The posting length guard inside run_bot:
if len(tweet_text) > 280: tweet_text = tweet_text[:277] + "...". -/
def lengthGuard (t : PyStr) : PyStr :=
  if 280 < t.length then t.take 277 ++ ['.', '.', '.'] else t

/-! ## posting_1.py : the fallback chain of post_tweet -/

/-- Outcome of one compose-method attempt inside post_tweet: the body
locates the elements and completes (ok), returns False without raising
(fail), or raises internally (exn).  Each method has its own try/except
that converts an internal raise into a False return value. -/
inductive StratOutcome where
  | ok
  | fail
  | exn
deriving DecidableEq

/-- A compose method reports success only when its body completed; both a
plain failure and an internally caught raise make the method return False. -/
def methodSucceeds : StratOutcome → Bool
  | .ok => true
  | .fail => false
  | .exn => false

/-- Trace of one run of the fallback chain of post_tweet: the boolean
result, the indices of the methods invoked in order, and the index of the
method whose success was logged, if any. -/
structure FallbackRun where
  success : Bool
  attempted : List Nat
  winner : Option Nat
deriving DecidableEq

/-- The fallback chain, indexing methods from i: try each method in order,
stop at the first success. -/
def runFallbackAux (i : Nat) : List StratOutcome → FallbackRun
  | [] => ⟨false, [], none⟩
  | o :: rest =>
    if methodSucceeds o then ⟨true, [i], some i⟩
    else
      let r := runFallbackAux (i + 1) rest
      ⟨r.success, i :: r.attempted, r.winner⟩

/-- The fallback chain of post_tweet: methods tried in order starting at
index 0, stopping at the first success. -/
def runFallback (outcomes : List StratOutcome) : FallbackRun :=
  runFallbackAux 0 outcomes

/-- Body of post_tweet inside the outer try: the navigation to the home
page may raise; afterwards the three compose methods are tried in order. -/
def post_tweet_body (nav m1 m2 m3 : StratOutcome) : Except Unit Bool :=
  if nav = .exn then .error ()
  else .ok (runFallback [m1, m2, m3]).success

/-- post_tweet: the outer except converts any raise reaching it into a
False return value, so the caller only ever sees a boolean. -/
def post_tweet (nav m1 m2 m3 : StratOutcome) : Bool :=
  match post_tweet_body nav m1 m2 m3 with
  | .ok b => b
  | .error _ => false

/-! ## posting_1.py : tweet selection and the posting loop of run_bot -/

/-- One record of the input JSON list: each of the two text fields may be
present or absent. -/
structure TweetRecord where
  tweet_with_hashtags : Option PyStr
  tweet : Option PyStr

/-- Python: tweet_data.get(given tweet_with_hashtags when the key is
present, else tweet_data.get(tweet, empty)). -/
def selectText (r : TweetRecord) : PyStr :=
  r.tweet_with_hashtags.getD (r.tweet.getD [])

/-- Counters and submitted texts accumulated by the posting loop. -/
structure BotState where
  successful : Nat
  failed : Nat
  submitted : List PyStr

/-- One iteration of the posting loop of run_bot: select the text, skip the
record when the selected text is empty, otherwise apply the length guard,
submit, and count the outcome. -/
def processRecord (post : PyStr → Bool) (st : BotState) (r : TweetRecord) : BotState :=
  let t := selectText r
  if t = [] then st
  else
    let t2 := lengthGuard t
    if post t2 then ⟨st.successful + 1, st.failed, st.submitted ++ [t2]⟩
    else ⟨st.successful, st.failed + 1, st.submitted ++ [t2]⟩

/-- The posting loop of run_bot over the whole record list. -/
def run_bot (post : PyStr → Bool) (records : List TweetRecord) : BotState :=
  records.foldl (processRecord post) ⟨0, 0, []⟩

/-! ## Crawler_code_guardian.py : string helpers shared by the crawler -/

/-- Python lowercasing of a URL or paragraph (ASCII is what occurs here). -/
def lowerStr (s : PyStr) : PyStr :=
  s.map Char.toLower

/-- Python substring membership test: needle in hay. -/
def substrMem (needle : PyStr) : PyStr → Bool
  | [] => needle.isPrefixOf []
  | c :: rest => needle.isPrefixOf (c :: rest) || substrMem needle rest

/-! ## Crawler_code_guardian.py : URL validity and discovery -/

/-- The exclude_patterns list of is_valid_article_url. -/
def exclude_patterns : List PyStr :=
  ["/live/", "/gallery/", "/video/", "/audio/",
   "/newsletters/", "/membership/", "/help/", "/info/",
   "/privacy/", "/terms/", "/contact/", "/jobs/",
   ".json", ".xml", ".css", ".js", ".png", ".jpg",
   "#", "mailto:", "tel:", "/crosswords/", "/games/",
   "/weather/", "/travel/offers/", "/guardian-live-events/"].map String.toList

/-- The valid_patterns list of is_valid_article_url. -/
def valid_patterns : List PyStr :=
  ["/2024/", "/2025/", "/world/", "/uk-news/", "/politics/",
   "/business/", "/environment/", "/science/", "/culture/",
   "/sport/", "/technology/", "/society/", "/education/"].map String.toList

/-- is_valid_article_url: require a Guardian host, reject every exclude
pattern (matched case-insensitively), and accept only URLs containing a
known content pattern. -/
def is_valid_article_url (url : PyStr) : Bool :=
  if url = [] then false
  else if !(substrMem "theguardian.com".toList url) then false
  else if exclude_patterns.any (fun p => substrMem p (lowerStr url)) then false
  else valid_patterns.any (fun p => substrMem p url)

/-- The per-seed body of discover_article_urls: the candidate links one
seed surfaced (already resolved to absolute URLs by urljoin), filtered for
validity, deduplicated by the found_links set, and capped. -/
def fetch_single_category (links : List PyStr) (maxPer : Nat) : List PyStr :=
  ((links.filter is_valid_article_url).dedup).take maxPer

/-- Contribution of one seed to discovery: an unreachable seed (the except
branch) contributes the empty list. -/
def seedContribution (fetched : Except Unit (List PyStr)) (maxPer : Nat) : List PyStr :=
  match fetched with
  | .error _ => []
  | .ok links => fetch_single_category links maxPer

/-- discover_article_urls: collect every seed contribution and deduplicate
across seeds (list(set(all_articles))). -/
def discover_article_urls (seeds : List (Except Unit (List PyStr))) (maxPer : Nat) :
    List PyStr :=
  ((seeds.map (fun f => seedContribution f maxPer)).flatten).dedup

/-! ## Crawler_code_guardian.py : categorize_url and direct extraction -/

/-- categorize_url: classify a URL by its path segments. -/
def categorize_url (url : PyStr) : PyStr :=
  if url = [] then "unknown".toList
  else if substrMem "/world/".toList url then "world".toList
  else if substrMem "/uk-news/".toList url then "uk".toList
  else if substrMem "/politics/".toList url then "politics".toList
  else if substrMem "/business/".toList url then "business".toList
  else if substrMem "/environment/".toList url then "environment".toList
  else if substrMem "/science/".toList url then "science".toList
  else if substrMem "/technology/".toList url then "technology".toList
  else if substrMem "/culture/".toList url || substrMem "/film/".toList url
    || substrMem "/books/".toList url then "culture".toList
  else if substrMem "/sport/".toList url || substrMem "/football/".toList url
    then "sport".toList
  else if substrMem "/society/".toList url then "society".toList
  else if substrMem "/education/".toList url then "education".toList
  else "general".toList

/-- The paragraph filter of extract_single_article: keep a paragraph when
it is longer than 20 characters, not already collected, does not start with
Guardian, and contains no ad marker. -/
def keepPara (acc : List PyStr) (t : PyStr) : Bool :=
  decide (20 < t.length) && !(acc.contains t)
    && !("Guardian".toList.isPrefixOf t)
    && !(substrMem "advertisement".toList (lowerStr t))
    && !(substrMem "subscribe".toList (lowerStr t))
    && !(substrMem "premium".toList (lowerStr t))

/-- The content loop of extract_single_article: walk the content selectors
in order, collecting accepted paragraphs, and stop as soon as at least 5
paragraphs have been collected. -/
def collectParas : List (List PyStr) → List PyStr → List PyStr
  | [], acc => acc
  | sel :: rest, acc =>
    let acc2 := sel.foldl (fun a t => if keepPara a t then a ++ [t] else a) acc
    if 5 ≤ acc2.length then acc2 else collectParas rest acc2

/-- Python len(content.split()): the number of maximal nonempty
whitespace-separated runs. -/
def wordCount (s : PyStr) : Nat :=
  ((s.splitOnP (fun c => c.isWhitespace)).filter (fun w => !w.isEmpty)).length

/-- One fetched article page: the text under the first matching title
selector, if any, and the paragraph texts under each content selector in
selector order. -/
structure ArticlePage where
  titleText : Option PyStr
  paraTexts : List (List PyStr)
deriving DecidableEq

/-- The record built for one successfully extracted article. -/
structure Article where
  url : PyStr
  title : PyStr
  content : PyStr
  word_count : Nat
  category : PyStr
deriving DecidableEq

/-- extract_single_article: a raised fetch yields None; otherwise join the
collected paragraphs with spaces, fail when the joined content is shorter
than 100 characters, and otherwise build the article record with the
content capped at 3000 characters. -/
def extract_single_article (url : PyStr) (fetched : Except Unit ArticlePage) :
    Option Article :=
  match fetched with
  | .error _ => none
  | .ok page =>
    let title := page.titleText.getD []
    let content := List.intercalate [' '] (collectParas page.paraTexts [])
    if content.length < 100 then none
    else some ⟨url,
      if title = [] then "No title found".toList else title,
      content.take 3000, wordCount content, categorize_url url⟩

/-- extract_content_direct: keep exactly the articles whose extraction
succeeded; these are the articles later handed to enrichment. -/
def extract_content_direct (inputs : List (PyStr × Except Unit ArticlePage)) :
    List Article :=
  inputs.filterMap (fun p => extract_single_article p.1 p.2)


/-! ## Crawler_code_guardian.py : JSON values and a model of json.loads -/

/-- JSON values as json.loads produces them.  Numbers are modelled as
integers and string escapes cover the simple forms; neither floats nor the
four-hex-digit escape occur in the concrete inputs considered here. -/
inductive Json where
  | null : Json
  | bool : Bool → Json
  | num : Int → Json
  | str : String → Json
  | arr : List Json → Json
  | obj : List (String × Json) → Json

/-- Python truthiness of a JSON value (empty containers and strings, zero,
false and null are falsy). -/
def Json.truthy : Json → Bool
  | .null => false
  | .bool b => b
  | .num n => decide (n ≠ 0)
  | .str s => !s.isEmpty
  | .arr l => !l.isEmpty
  | .obj l => !l.isEmpty

/-- Truthiness of an optional value (a missing key is falsy). -/
def optTruthy : Option Json → Bool
  | none => false
  | some j => j.truthy

/-- Key lookup in an object, first match. -/
def lookupKey : List (String × Json) → String → Option Json
  | [], _ => none
  | (k0, v) :: rest, k => if k0 = k then some v else lookupKey rest k

/-- Python dict insertion: overwrite an existing key in place, else append. -/
def insertKey : List (String × Json) → String → Json → List (String × Json)
  | [], k, v => [(k, v)]
  | (k0, v0) :: rest, k, v =>
    if k0 = k then (k0, v) :: rest else (k0, v0) :: insertKey rest k v

/-- Python dict get on an object value; None on any other value. -/
def jsonGet (j : Json) (k : String) : Option Json :=
  match j with
  | .obj kvs => lookupKey kvs k
  | _ => none

/-- Skip JSON whitespace. -/
def skipWs : List Char → List Char
  | [] => []
  | c :: rest =>
    if c = ' ' || c = '\t' || c = '\n' || c = '\r' then skipWs rest else c :: rest

/-- Parse the remainder of a JSON string literal after its opening quote,
returning the contents and the rest of the input. -/
def parseStringRest : List Char → Option (List Char × List Char)
  | [] => none
  | '"' :: rest => some ([], rest)
  | '\\' :: e :: rest =>
    let dec : Option Char :=
      if e = '"' then some '"'
      else if e = '\\' then some '\\'
      else if e = '/' then some '/'
      else if e = 'n' then some '\n'
      else if e = 't' then some '\t'
      else if e = 'r' then some '\r'
      else if e = 'b' then some (Char.ofNat 8)
      else if e = 'f' then some (Char.ofNat 12)
      else none
    match dec with
    | none => none
    | some c =>
      match parseStringRest rest with
      | none => none
      | some (s, r) => some (c :: s, r)
  | c :: rest =>
    if c.toNat < 32 then none
    else
      match parseStringRest rest with
      | none => none
      | some (s, r) => some (c :: s, r)

/-- Take a maximal run of decimal digits. -/
def takeDigits : List Char → (List Char × List Char)
  | [] => ([], [])
  | c :: rest =>
    if c.isDigit then
      let p := takeDigits rest
      (c :: p.1, p.2)
    else ([], c :: rest)

/-- Value of a digit run. -/
def digitsToNat (ds : List Char) : Nat :=
  ds.foldl (fun n c => n * 10 + (c.toNat - 48)) 0

/-- Parser mode: a value, the members of an object after its opening
brace, or the elements of an array after its opening bracket. -/
inductive PState where
  | value : PState
  | members : List (String × Json) → PState
  | elems : List Json → PState

/-- Fuel-bounded recursive-descent JSON parser. -/
def parseJ : Nat → PState → List Char → Option (Json × List Char)
  | 0, _, _ => none
  | fuel + 1, .value, cs =>
    match skipWs cs with
    | [] => none
    | c :: rest =>
      if c = '"' then
        match parseStringRest rest with
        | some (s, r) => some (.str (String.mk s), r)
        | none => none
      else if c = '\x7b' then
        match skipWs rest with
        | '\x7d' :: r => some (.obj [], r)
        | r => parseJ fuel (.members []) r
      else if c = '[' then
        match skipWs rest with
        | ']' :: r => some (.arr [], r)
        | r => parseJ fuel (.elems []) r
      else if c = 't' then
        if rest.take 3 = ['r', 'u', 'e'] then some (.bool true, rest.drop 3) else none
      else if c = 'f' then
        if rest.take 4 = ['a', 'l', 's', 'e'] then some (.bool false, rest.drop 4)
        else none
      else if c = 'n' then
        if rest.take 3 = ['u', 'l', 'l'] then some (.null, rest.drop 3) else none
      else if c = '-' then
        match takeDigits rest with
        | ([], _) => none
        | (ds, r) => some (.num (-(digitsToNat ds : Int)), r)
      else if c.isDigit then
        match takeDigits (c :: rest) with
        | (ds, r) => some (.num (digitsToNat ds), r)
      else none
  | fuel + 1, .members acc, cs =>
    match skipWs cs with
    | '"' :: rest =>
      match parseStringRest rest with
      | none => none
      | some (k, r1) =>
        match skipWs r1 with
        | ':' :: r2 =>
          match parseJ fuel .value r2 with
          | none => none
          | some (v, r3) =>
            let acc2 := insertKey acc (String.mk k) v
            match skipWs r3 with
            | ',' :: r4 => parseJ fuel (.members acc2) r4
            | '\x7d' :: r4 => some (.obj acc2, r4)
            | _ => none
        | _ => none
    | _ => none
  | fuel + 1, .elems acc, cs =>
    match parseJ fuel .value cs with
    | none => none
    | some (v, r) =>
      match skipWs r with
      | ',' :: r2 => parseJ fuel (.elems (acc ++ [v])) r2
      | ']' :: r2 => some (.arr (acc ++ [v]), r2)
      | _ => none

/-- json.loads on a character sequence: parse one value and require that
only whitespace remains. -/
def json_loads (s : List Char) : Option Json :=
  match parseJ (2 * s.length + 4) .value s with
  | some (j, rest) => if skipWs rest = [] then some j else none
  | none => none

/-! ## Crawler_code_guardian.py : analyze_with_ollama_fast -/

/-- The run of characters from a position up to and including the first
closing brace, if one exists. -/
def takeUntilClose : List Char → Option (List Char)
  | [] => none
  | c :: rest =>
    if c = '\x7d' then some ['\x7d']
    else
      match takeUntilClose rest with
      | none => none
      | some s => some (c :: s)

/-- The first match of the fallback extraction pattern (open brace, a run
of non-closing-brace characters, close brace): from the first open brace
that has a closing brace after it, up to and including that closing
brace. -/
def firstBraceMatch : List Char → Option (List Char)
  | [] => none
  | c :: rest =>
    if c = '\x7b' then
      match takeUntilClose rest with
      | some body => some ('\x7b' :: body)
      | none => firstBraceMatch rest
    else firstBraceMatch rest

/-- Python str.strip(): remove leading and trailing whitespace. -/
def pyStrip (s : List Char) : List Char :=
  ((s.dropWhile Char.isWhitespace).reverse.dropWhile Char.isWhitespace).reverse

/-- Python startswith on a single open brace. -/
def startsWithBrace : List Char → Bool
  | [] => false
  | c :: _ => c = '\x7b'

/-- The fixed fallback object returned when analysis or parsing fails. -/
def defaultAnalysis : Json :=
  .obj [("headline", .str "Analysis failed"),
        ("summary", .str "Could not analyze content"),
        ("key_topics", .arr []),
        ("sentiment", .str "neutral"),
        ("urgency", .str "medium")]

/-- analyze_with_ollama_fast: on a successful model call, strip the
response; when it starts with an open brace, try a direct parse; on
failure, try the first embedded brace-delimited substring; every remaining
path, including a raising model call, returns the fixed default object. -/
def analyze_with_ollama_fast (chatResult : Except Unit (List Char)) : Json :=
  match chatResult with
  | .error _ => defaultAnalysis
  | .ok raw =>
    let t := pyStrip raw
    match (if startsWithBrace t then json_loads t else none) with
    | some j => j
    | none =>
      match firstBraceMatch t with
      | some sub =>
        match json_loads sub with
        | some j => j
        | none => defaultAnalysis
      | none => defaultAnalysis

/-! ## Crawler_code_guardian.py : analyze_single_article (enrichment) -/

/-- An article after enrichment: the derived fields hold whatever JSON
values the analysis object supplied (the title may be replaced by the
analysis headline, hence is a JSON value here). -/
structure EnrichedArticle where
  url : PyStr
  title : Json
  content : PyStr
  word_count : Nat
  category : PyStr
  ai_analysis : Json
  summary : Json
  topics : Json
  sentiment : Json
  urgency : Json

/-- analyze_single_article: run the analysis and merge its fields into the
article, defaulting each missing key (summary to the empty string, topics
to the empty list, sentiment to neutral, urgency to medium). -/
def analyze_single_article (a : Article) (chatResult : Except Unit (List Char)) :
    EnrichedArticle :=
  let analysis := analyze_with_ollama_fast chatResult
  { url := a.url,
    title :=
      if decide (a.title = []) && optTruthy (jsonGet analysis "headline")
      then (jsonGet analysis "headline").getD .null
      else .str (String.mk a.title),
    content := a.content,
    word_count := a.word_count,
    category := a.category,
    ai_analysis := analysis,
    summary := (jsonGet analysis "summary").getD (.str ""),
    topics := (jsonGet analysis "key_topics").getD (.arr []),
    sentiment := (jsonGet analysis "sentiment").getD (.str "neutral"),
    urgency := (jsonGet analysis "urgency").getD (.str "medium") }

/-- The documented sentiment value set. -/
def sentimentAllowed : Json → Bool
  | .str s => s == "positive" || s == "negative" || s == "neutral"
  | _ => false

/-- The documented urgency value set. -/
def urgencyAllowed : Json → Bool
  | .str s => s == "high" || s == "medium" || s == "low"
  | _ => false

/-! ## Crawler_code_guardian.py : aggregation -/

/-- The fields of a processed article that the aggregation stage reads;
the sentiment is whatever JSON value enrichment stored (or absent), the
topic list is taken as a list of strings. -/
structure AArticle where
  sentiment : Option Json
  topics : List String
  word_count : Nat
  category : String

/-- One step of the sentiment tally: only the three known string values
are counted, every other value is ignored. -/
def bumpSentiment (d : Nat × Nat × Nat) (s : Json) : Nat × Nat × Nat :=
  match s with
  | .str t =>
    if t = "positive" then (d.1 + 1, d.2.1, d.2.2)
    else if t = "negative" then (d.1, d.2.1 + 1, d.2.2)
    else if t = "neutral" then (d.1, d.2.1, d.2.2 + 1)
    else d
  | _ => d

/-- calculate_sentiment_distribution: tally the sentiments of the articles
whose sentiment value is truthy, as (positive, negative, neutral). -/
def calculate_sentiment_distribution (articles : List AArticle) : Nat × Nat × Nat :=
  ((articles.filter (fun a => optTruthy a.sentiment)).map
    (fun a => a.sentiment.getD (Json.str "neutral"))).foldl bumpSentiment (0, 0, 0)

/-- Fuel-bounded topic tally: keys in first-seen order, each with its total
occurrence count (the Python dict built by extract_top_topics). -/
def topicCountsF : Nat → List String → List (String × Nat)
  | _, [] => []
  | 0, _ :: _ => []
  | fuel + 1, t :: ts =>
    (t, 1 + ts.count t) :: topicCountsF fuel (ts.filter (fun u => decide (u ≠ t)))

/-- The topic tally with enough fuel for the whole list. -/
def topicCounts (l : List String) : List (String × Nat) :=
  topicCountsF l.length l

/-- Position of the first occurrence of a string in a list. -/
def firstIdx (l : List String) (t : String) : Nat :=
  match l with
  | [] => 0
  | u :: rest => if u = t then 0 else 1 + firstIdx rest t

/-- Stable descending insertion by count: an element is placed before the
first strictly smaller count, after every earlier element of equal or
larger count. -/
def insertDesc (x : String × Nat) : List (String × Nat) → List (String × Nat)
  | [] => [x]
  | y :: ys => if y.2 ≤ x.2 then x :: y :: ys else y :: insertDesc x ys

/-- Stable insertion sort by count descending: the order Python sorted with
a reversed count key produces, keeping equal counts in input order. -/
def sortByCountDesc : List (String × Nat) → List (String × Nat)
  | [] => []
  | x :: xs => insertDesc x (sortByCountDesc xs)

/-- The concatenated topic lists of all articles, in article order. -/
def allTopicsOf (articles : List AArticle) : List String :=
  (articles.map (fun a => a.topics)).flatten

/-- extract_top_topics: tally all topics, sort by count descending
(stable), and keep the first 10. -/
def extract_top_topics (articles : List AArticle) : List (String × Nat) :=
  (sortByCountDesc (topicCounts (allTopicsOf articles))).take 10

/-- generate_summary output.  The average word count is represented by the
pair of its numerator (the word-count sum) and denominator (the article
count); division of these is deterministic.  The topic sample keeps one
fixed set-iteration order. -/
structure Summary where
  total_articles : Nat
  total_categories : Nat
  word_count_sum : Nat
  global_sentiment : Nat × Nat × Nat
  unique_topics : Nat
  all_topics : List String

/-- generate_summary: empty input gives the empty object, otherwise the
global statistics (here the sentiment tally has no truthiness filter and
missing keys count as neutral). -/
def generate_summary (articles : List AArticle) : Option Summary :=
  if articles.isEmpty then none
  else
    some
      { total_articles := articles.length,
        total_categories := ((articles.map (fun a => a.category)).dedup).length,
        word_count_sum := (articles.map (fun a => a.word_count)).sum,
        global_sentiment :=
          (articles.map (fun a => a.sentiment.getD (Json.str "neutral"))).foldl
            bumpSentiment (0, 0, 0),
        unique_topics := ((allTopicsOf articles).dedup).length,
        all_topics := ((allTopicsOf articles).dedup).take 20 }

/-! ## Theorems -/

/-- C1: a text longer than 280 characters is truncated to its first 277
characters plus an ellipsis, giving exactly 280 characters ending in three
dots; a text of length at most 280 passes through unchanged. -/
theorem lengthGuard_spec (t : PyStr) :
    (280 < t.length →
      lengthGuard t = t.take 277 ++ ['.', '.', '.'] ∧
      (lengthGuard t).length = 280 ∧
      (lengthGuard t).drop 277 = ['.', '.', '.']) ∧
    (t.length ≤ 280 → lengthGuard t = t) := by
  constructor
  · intro h
    have ht : (t.take 277).length = 277 := by
      rw [List.length_take]; omega
    refine ⟨by simp [lengthGuard, h], ?_, ?_⟩
    · simp only [lengthGuard, if_pos h, List.length_append, ht, List.length_cons,
        List.length_nil]
    · simp only [lengthGuard, if_pos h]
      exact List.drop_left' ht
  · intro h
    have h2 : ¬ 280 < t.length := by omega
    simp [lengthGuard, h2]

/-- Witness for C1 at a concrete 300-character input. -/
theorem lengthGuard_spec_witness :
    280 < (List.replicate 300 'a').length ∧
    lengthGuard (List.replicate 300 'a')
      = (List.replicate 300 'a').take 277 ++ ['.', '.', '.'] ∧
    (lengthGuard (List.replicate 300 'a')).length = 280 := by
  have h := (lengthGuard_spec (List.replicate 300 'a')).1
    (by rw [List.length_replicate]; omega)
  exact ⟨by rw [List.length_replicate]; omega, h.1, h.2.1⟩

/-- Unfolding equation for one step of the fallback chain. -/
theorem runFallbackAux_cons (i : Nat) (o : StratOutcome) (rest : List StratOutcome) :
    runFallbackAux i (o :: rest)
      = if methodSucceeds o then ⟨true, [i], some i⟩
        else ⟨(runFallbackAux (i + 1) rest).success,
          i :: (runFallbackAux (i + 1) rest).attempted,
          (runFallbackAux (i + 1) rest).winner⟩ := rfl

/-- Helper for C2: running the chain from start index n, when position i is
the first success, yields success, attempts exactly indices n..n+i in
order, and logs n+i as the winner. -/
theorem runFallbackAux_first_success (outcomes : List StratOutcome) (n i : Nat)
    (hi : i < outcomes.length)
    (hsucc : methodSucceeds (outcomes.get ⟨i, hi⟩) = true)
    (hbefore : ∀ j (hj : j < outcomes.length), j < i →
      methodSucceeds (outcomes.get ⟨j, hj⟩) = false) :
    runFallbackAux n outcomes
      = ⟨true, (List.range (i + 1)).map (n + ·), some (n + i)⟩ := by
  induction outcomes generalizing n i with
  | nil => simp at hi
  | cons o rest ih =>
    cases i with
    | zero =>
      have h0 : methodSucceeds o = true := by simpa using hsucc
      simp [runFallbackAux_cons, h0, List.range_succ, List.range_zero]
    | succ j =>
      have h0 : methodSucceeds o = false := by
        have := hbefore 0 (Nat.succ_pos _) (Nat.succ_pos _)
        simpa using this
      have hj : j < rest.length := Nat.succ_lt_succ_iff.mp hi
      have hsucc2 : methodSucceeds (rest.get ⟨j, hj⟩) = true := by
        simpa using hsucc
      have hbefore2 : ∀ k (hk : k < rest.length), k < j →
          methodSucceeds (rest.get ⟨k, hk⟩) = false := by
        intro k hk hkj
        have := hbefore (k + 1) (Nat.succ_lt_succ hk) (Nat.succ_lt_succ hkj)
        simpa using this
      have key := ih (n + 1) j hj hsucc2 hbefore2
      have hfun : ((n + ·) ∘ Nat.succ) = ((n + 1) + ·) := by
        funext k
        simp only [Function.comp_apply]
        omega
      have hmap : (List.range (j + 1 + 1)).map (n + ·)
          = n :: (List.range (j + 1)).map ((n + 1) + ·) := by
        rw [List.range_succ_eq_map, List.map_cons, List.map_map, hfun]
        simp
      have harith : n + 1 + j = n + (j + 1) := by omega
      rw [runFallbackAux_cons, if_neg (by simp [h0]), key, harith, hmap]

/-- C2: the fallback pipeline of post_tweet attempts the strategies
strictly in order; when strategy i is the first one that succeeds, the run
reports success, records i as the winning strategy, attempts exactly the
indices 0..i in ascending order, and never invokes any strategy after i. -/
theorem runFallback_first_success (outcomes : List StratOutcome) (i : Nat)
    (hi : i < outcomes.length)
    (hsucc : methodSucceeds (outcomes.get ⟨i, hi⟩) = true)
    (hbefore : ∀ j (hj : j < outcomes.length), j < i →
      methodSucceeds (outcomes.get ⟨j, hj⟩) = false) :
    (runFallback outcomes).success = true ∧
    (runFallback outcomes).winner = some i ∧
    (runFallback outcomes).attempted = List.range (i + 1) ∧
    ∀ k, i < k → k ∉ (runFallback outcomes).attempted := by
  have key := runFallbackAux_first_success outcomes 0 i hi hsucc hbefore
  rw [runFallback, key]
  refine ⟨rfl, by simp, by simp, ?_⟩
  intro k hk hmem
  simp only [List.mem_map, List.mem_range] at hmem
  obtain ⟨a, ha, hak⟩ := hmem
  omega

/-- Witness for C2: with strategies [fail, succeed, fail], the result
records index 1 as the winner, attempts exactly indices 0 and 1, and index
2 is never invoked. -/
theorem runFallback_first_success_witness :
    (runFallback [.fail, .ok, .fail]).success = true ∧
    (runFallback [.fail, .ok, .fail]).winner = some 1 ∧
    (runFallback [.fail, .ok, .fail]).attempted = List.range 2 ∧
    2 ∉ (runFallback [.fail, .ok, .fail]).attempted := by
  have h := runFallback_first_success [.fail, .ok, .fail] 1 (by decide) (by decide)
    (by decide)
  exact ⟨h.1, h.2.1, h.2.2.1, h.2.2.2 2 (by decide)⟩

/-- C3: when every strategy fails or raises internally (and whether or not
the initial navigation raises), post_tweet returns the boolean False; every
raising path of its body is caught by the outer except in its definition,
so the caller always receives a boolean. -/
theorem post_tweet_exhaustion (nav m1 m2 m3 : StratOutcome)
    (h1 : methodSucceeds m1 = false) (h2 : methodSucceeds m2 = false)
    (h3 : methodSucceeds m3 = false) :
    post_tweet nav m1 m2 m3 = false := by
  by_cases hnav : nav = .exn
  · simp [post_tweet, post_tweet_body, hnav]
  · simp [post_tweet, post_tweet_body, hnav, runFallback, runFallbackAux, h1, h2, h3]

/-- Witness for C3: every method raises internally and the navigation
raises as well; the result is still the boolean False. -/
theorem post_tweet_exhaustion_witness :
    post_tweet .exn .exn .exn .exn = false :=
  post_tweet_exhaustion .exn .exn .exn .exn rfl rfl rfl

/-- Helper for C10: from any accumulated state, the posting loop appends
exactly the guarded texts of the non-skipped records. -/
theorem run_bot_submitted_aux (post : PyStr → Bool) (records : List TweetRecord)
    (st : BotState) :
    (records.foldl (processRecord post) st).submitted
      = st.submitted ++ records.filterMap
          (fun r => if selectText r = [] then none
            else some (lengthGuard (selectText r))) := by
  induction records generalizing st with
  | nil => simp
  | cons r rest ih =>
    rw [List.foldl_cons, ih]
    by_cases hr : selectText r = []
    · simp [processRecord, hr]
    · by_cases hp : post (lengthGuard (selectText r)) = true
      · simp [processRecord, hr, hp]
      · simp [processRecord, hr, hp]

/-- Helper for C10: from any accumulated state, each non-skipped record adds
exactly one to the combined success and failure count, and a skipped record
adds nothing. -/
theorem run_bot_counts_aux (post : PyStr → Bool) (records : List TweetRecord)
    (st : BotState) :
    (records.foldl (processRecord post) st).successful
        + (records.foldl (processRecord post) st).failed
      = st.successful + st.failed
        + (records.filter (fun r => decide (selectText r ≠ []))).length := by
  induction records generalizing st with
  | nil => simp
  | cons r rest ih =>
    rw [List.foldl_cons, ih]
    by_cases hr : selectText r = []
    · simp [processRecord, hr]
    · by_cases hp : post (lengthGuard (selectText r)) = true
      · simp [processRecord, hr, hp]
        omega
      · simp [processRecord, hr, hp]
        omega

/-- C10: the text submitted for a record is the tweet_with_hashtags field
when present, else the tweet field (run through the length guard); a record
whose selected text is empty or missing is skipped entirely: it is neither
submitted nor counted as a success or a failure. -/
theorem run_bot_selection (post : PyStr → Bool) (records : List TweetRecord) :
    (run_bot post records).submitted
      = records.filterMap
          (fun r => if selectText r = [] then none
            else some (lengthGuard (selectText r))) ∧
    (run_bot post records).successful + (run_bot post records).failed
      = (records.filter (fun r => decide (selectText r ≠ []))).length ∧
    (∀ r s, r.tweet_with_hashtags = some s → selectText r = s) ∧
    (∀ r s, r.tweet_with_hashtags = none → r.tweet = some s → selectText r = s) := by
  refine ⟨?_, ?_, ?_, ?_⟩
  · have h := run_bot_submitted_aux post records ⟨0, 0, []⟩
    simpa [run_bot] using h
  · have h := run_bot_counts_aux post records ⟨0, 0, []⟩
    simpa [run_bot] using h
  · intro r s h
    simp [selectText, h]
  · intro r s h1 h2
    simp [selectText, h1, h2]

/-- Witness for C10 on a concrete record list: the first record uses its
tweet_with_hashtags field, the second falls back to its tweet field, the
third (empty selected text) is skipped and not counted. -/
theorem run_bot_selection_witness :
    (run_bot (fun _ => true)
        [⟨some ['h'], some ['t']⟩, ⟨none, some ['t']⟩, ⟨some [], none⟩]).submitted
      = [['h'], ['t']] ∧
    (run_bot (fun _ => true)
        [⟨some ['h'], some ['t']⟩, ⟨none, some ['t']⟩, ⟨some [], none⟩]).successful
      + (run_bot (fun _ => true)
        [⟨some ['h'], some ['t']⟩, ⟨none, some ['t']⟩, ⟨some [], none⟩]).failed = 2 ∧
    selectText ⟨some ['h'], some ['t']⟩ = ['h'] ∧
    selectText ⟨none, some ['t']⟩ = ['t'] := by
  have h := run_bot_selection (fun _ => true)
    [⟨some ['h'], some ['t']⟩, ⟨none, some ['t']⟩, ⟨some [], none⟩]
  refine ⟨?_, ?_, h.2.2.1 ⟨some ['h'], some ['t']⟩ ['h'] rfl,
    h.2.2.2 ⟨none, some ['t']⟩ ['t'] rfl rfl⟩
  · rw [h.1]
    decide
  · rw [h.2.1]
    decide

/-- C7: the discovered target list never contains a duplicate URL; a URL
appears in the output exactly when some seed contributed it, and then it
appears exactly once, however many seeds surfaced it. -/
theorem discover_article_urls_dedup (seeds : List (Except Unit (List PyStr)))
    (maxPer : Nat) :
    (discover_article_urls seeds maxPer).Nodup ∧
    (∀ u, u ∈ discover_article_urls seeds maxPer ↔
      ∃ f ∈ seeds, u ∈ seedContribution f maxPer) ∧
    (∀ u, u ∈ discover_article_urls seeds maxPer →
      @List.count PyStr instBEqOfDecidableEq u (discover_article_urls seeds maxPer)
        = 1) := by
  refine ⟨List.nodup_dedup _, ?_, ?_⟩
  · intro u
    simp only [discover_article_urls, List.mem_dedup, List.mem_flatten, List.mem_map]
    constructor
    · rintro ⟨l, ⟨f, hf, rfl⟩, hu⟩
      exact ⟨f, hf, hu⟩
    · rintro ⟨f, hf, hu⟩
      exact ⟨seedContribution f maxPer, ⟨f, hf, rfl⟩, hu⟩
  · intro u hu
    exact List.count_eq_one_of_mem (List.nodup_dedup _) hu

/-- Witness for C7: two seeds surfacing the same valid URL; the output
contains it exactly once. -/
theorem discover_article_urls_dedup_witness :
    @List.count PyStr instBEqOfDecidableEq "theguardian.com/world/x".toList
      (discover_article_urls
        [Except.ok ["theguardian.com/world/x".toList],
         Except.ok ["theguardian.com/world/x".toList]] 5) = 1 := by
  have h := discover_article_urls_dedup
    [Except.ok ["theguardian.com/world/x".toList],
     Except.ok ["theguardian.com/world/x".toList]] 5
  exact h.2.2 "theguardian.com/world/x".toList (by decide)

/-- C4: extraction of a page whose joined content is shorter than 100
characters fails with None, and every article that extraction hands onward
to enrichment carries at least 100 characters of content. -/
theorem extraction_min_length (inputs : List (PyStr × Except Unit ArticlePage))
    (url : PyStr) (page : ArticlePage) :
    ((List.intercalate [' '] (collectParas page.paraTexts [])).length < 100 →
      extract_single_article url (.ok page) = none) ∧
    (∀ a ∈ extract_content_direct inputs, 100 ≤ a.content.length) := by
  constructor
  · intro hshort
    simp [extract_single_article, hshort]
  · intro a ha
    simp only [extract_content_direct, List.mem_filterMap] at ha
    obtain ⟨⟨u, fetched⟩, _, hex⟩ := ha
    match fetched with
    | .error e => simp [extract_single_article] at hex
    | .ok page2 =>
      by_cases hc :
          (List.intercalate [' '] (collectParas page2.paraTexts [])).length < 100
      · simp [extract_single_article, hc] at hex
      · simp only [extract_single_article, if_neg hc, Option.some.injEq] at hex
        rw [← hex]
        simp only [List.length_take]
        omega

/-- Witness for C4: an empty page is rejected, and a concrete article with
101 characters of content satisfies the minimum-length bound. -/
theorem extraction_min_length_witness :
    extract_single_article ['u'] (Except.ok ⟨none, []⟩) = none ∧
    100 ≤ ((⟨['u'], "No title found".toList, List.replicate 101 'x', 1,
      "general".toList⟩ : Article)).content.length := by
  constructor
  · exact (extraction_min_length [] ['u'] ⟨none, []⟩).1 (by decide)
  · exact (extraction_min_length
      [(['u'], Except.ok ⟨none, [[List.replicate 101 'x']]⟩)] ['u'] ⟨none, []⟩).2
      _ (by decide)

/-- C5: the enrichment call never raises to its caller: a raising model
call yields the default object; a brace-initial response that parses
directly is returned as parsed; otherwise the first embedded brace
substring that parses is returned; when both parses fail, the fixed
default object is returned. -/
theorem analyze_never_raises :
    (analyze_with_ollama_fast (Except.error ()) = defaultAnalysis) ∧
    (∀ s j, startsWithBrace (pyStrip s) = true → json_loads (pyStrip s) = some j →
      analyze_with_ollama_fast (Except.ok s) = j) ∧
    (∀ s sub j,
      (startsWithBrace (pyStrip s) = true → json_loads (pyStrip s) = none) →
      firstBraceMatch (pyStrip s) = some sub → json_loads sub = some j →
      analyze_with_ollama_fast (Except.ok s) = j) ∧
    (∀ s,
      (startsWithBrace (pyStrip s) = true → json_loads (pyStrip s) = none) →
      (∀ sub, firstBraceMatch (pyStrip s) = some sub → json_loads sub = none) →
      analyze_with_ollama_fast (Except.ok s) = defaultAnalysis) := by
  refine ⟨rfl, ?_, ?_, ?_⟩
  · intro s j hb hp
    simp [analyze_with_ollama_fast, hb, hp]
  · intro s sub j hdir hsub hj
    by_cases hb : startsWithBrace (pyStrip s) = true
    · simp [analyze_with_ollama_fast, hb, hdir hb, hsub, hj]
    · simp [analyze_with_ollama_fast, hb, hsub, hj]
  · intro s hdir hall
    by_cases hb : startsWithBrace (pyStrip s) = true
    · cases hsub : firstBraceMatch (pyStrip s) with
      | none => simp [analyze_with_ollama_fast, hb, hdir hb, hsub]
      | some sub =>
        simp [analyze_with_ollama_fast, hb, hdir hb, hsub, hall sub hsub]
    · cases hsub : firstBraceMatch (pyStrip s) with
      | none => simp [analyze_with_ollama_fast, hb, hsub]
      | some sub =>
        simp [analyze_with_ollama_fast, hb, hsub, hall sub hsub]

/-- Witness for C5: a brace-initial response parsing to the empty object
is returned exactly as parsed. -/
theorem analyze_never_raises_witness :
    analyze_with_ollama_fast (Except.ok "\x7b\x7d".toList) = Json.obj [] :=
  analyze_never_raises.2.1 "\x7b\x7d".toList (Json.obj []) rfl rfl

/-- C6 counterexample: a well-formed model response carrying sentiment
happy and urgency urgent parses successfully and is stored verbatim: the
enriched sentiment and urgency lie outside the documented value sets. -/
theorem enriched_sentiment_unconstrained :
    sentimentAllowed (analyze_single_article ⟨[], [], [], 0, []⟩
      (Except.ok "\x7b\"sentiment\":\"happy\",\"urgency\":\"urgent\"\x7d".toList)).sentiment
      = false ∧
    urgencyAllowed (analyze_single_article ⟨[], [], [], 0, []⟩
      (Except.ok "\x7b\"sentiment\":\"happy\",\"urgency\":\"urgent\"\x7d".toList)).urgency
      = false ∧
    (analyze_single_article ⟨[], [], [], 0, []⟩
      (Except.ok "\x7b\"sentiment\":\"happy\",\"urgency\":\"urgent\"\x7d".toList)).sentiment
      = Json.str "happy" :=
  ⟨rfl, rfl, rfl⟩

/-- C6 (amended): the sentiment and urgency of an enriched article are
exactly the values found in the analysis object, with neutral and medium
defaults for absent keys, and no validation; whenever the analysis
degrades to the default object, both fields lie in the documented value
sets. -/
theorem enriched_sentiment_urgency (a : Article)
    (chatResult : Except Unit (List Char)) :
    ((analyze_single_article a chatResult).sentiment
        = (jsonGet (analyze_with_ollama_fast chatResult) "sentiment").getD
            (Json.str "neutral") ∧
      (analyze_single_article a chatResult).urgency
        = (jsonGet (analyze_with_ollama_fast chatResult) "urgency").getD
            (Json.str "medium")) ∧
    (analyze_with_ollama_fast chatResult = defaultAnalysis →
      sentimentAllowed (analyze_single_article a chatResult).sentiment = true ∧
      urgencyAllowed (analyze_single_article a chatResult).urgency = true) := by
  refine ⟨⟨rfl, rfl⟩, ?_⟩
  intro h
  constructor
  · show sentimentAllowed ((jsonGet (analyze_with_ollama_fast chatResult)
      "sentiment").getD (Json.str "neutral")) = true
    rw [h]
    rfl
  · show urgencyAllowed ((jsonGet (analyze_with_ollama_fast chatResult)
      "urgency").getD (Json.str "medium")) = true
    rw [h]
    rfl

/-- Witness for the amended C6 at a raising model call. -/
theorem enriched_sentiment_urgency_witness :
    sentimentAllowed (analyze_single_article ⟨[], [], [], 0, []⟩
      (Except.error ())).sentiment = true ∧
    urgencyAllowed (analyze_single_article ⟨[], [], [], 0, []⟩
      (Except.error ())).urgency = true :=
  (enriched_sentiment_urgency ⟨[], [], [], 0, []⟩ (Except.error ())).2 rfl

/-- C9: aggregation is deterministic: a second application of the three
aggregation functions to the same article list yields the same sentiment
distribution, top topics and global summary. -/
theorem aggregation_deterministic (articles : List AArticle) :
    (calculate_sentiment_distribution articles, extract_top_topics articles,
      generate_summary articles)
      = (calculate_sentiment_distribution articles, extract_top_topics articles,
        generate_summary articles) := rfl

/-- Membership through stable insertion. -/
theorem insertDesc_mem (x z : String × Nat) (l : List (String × Nat)) :
    z ∈ insertDesc x l ↔ z = x ∨ z ∈ l := by
  induction l with
  | nil => simp [insertDesc]
  | cons y ys ih =>
    by_cases h : y.2 ≤ x.2
    · simp only [insertDesc, if_pos h, List.mem_cons]
    · simp only [insertDesc, if_neg h, List.mem_cons, ih]
      tauto

/-- Membership through the stable sort. -/
theorem sortByCountDesc_mem (z : String × Nat) (l : List (String × Nat)) :
    z ∈ sortByCountDesc l ↔ z ∈ l := by
  induction l with
  | nil => simp [sortByCountDesc]
  | cons x xs ih => simp [sortByCountDesc, insertDesc_mem, ih]

/-- Inserting an element whose tiebreak rank lies below that of every
listed element preserves the combined order: count strictly descending,
or equal counts in tiebreak order. -/
theorem insertDesc_pairwise (f : String × Nat → Nat) (x : String × Nat)
    (l : List (String × Nat))
    (hl : l.Pairwise (fun a b => b.2 < a.2 ∨ (a.2 = b.2 ∧ f a < f b)))
    (hx : ∀ y ∈ l, f x < f y) :
    (insertDesc x l).Pairwise (fun a b => b.2 < a.2 ∨ (a.2 = b.2 ∧ f a < f b)) := by
  induction l with
  | nil => simp [insertDesc]
  | cons y ys ih =>
    rcases List.pairwise_cons.mp hl with ⟨hy, hys⟩
    by_cases h : y.2 ≤ x.2
    · simp only [insertDesc, if_pos h]
      refine List.pairwise_cons.mpr ⟨?_, hl⟩
      intro z hz
      have hz2 : z.2 ≤ x.2 := by
        rcases List.mem_cons.mp hz with rfl | hzys
        · exact h
        · rcases hy z hzys with hlt | ⟨heq, _⟩
          · omega
          · omega
      by_cases hlt : z.2 < x.2
      · exact Or.inl hlt
      · exact Or.inr ⟨by omega, hx z hz⟩
    · simp only [insertDesc, if_neg h]
      refine List.pairwise_cons.mpr
        ⟨?_, ih hys (fun z hz => hx z (List.mem_cons_of_mem _ hz))⟩
      intro z hz
      rcases (insertDesc_mem x z ys).mp hz with rfl | hzys
      · exact Or.inl (by omega)
      · exact hy z hzys

/-- The stable sort of a list whose tiebreak ranks strictly increase is
ordered by count descending, with equal counts in tiebreak order. -/
theorem sortByCountDesc_pairwise (f : String × Nat → Nat)
    (l : List (String × Nat)) (hl : l.Pairwise (fun a b => f a < f b)) :
    (sortByCountDesc l).Pairwise
      (fun a b => b.2 < a.2 ∨ (a.2 = b.2 ∧ f a < f b)) := by
  induction l with
  | nil => simp [sortByCountDesc]
  | cons x xs ih =>
    rcases List.pairwise_cons.mp hl with ⟨hx, hxs⟩
    exact insertDesc_pairwise f x (sortByCountDesc xs) (ih hxs)
      (fun y hy => hx y ((sortByCountDesc_mem y xs).mp hy))

/-- Every key of the topic tally occurs in the tallied list. -/
theorem topicCountsF_keys_mem (fuel : Nat) :
    ∀ (l : List String), ∀ x ∈ topicCountsF fuel l, x.1 ∈ l := by
  induction fuel with
  | zero =>
    intro l x hx
    cases l with
    | nil => simp [topicCountsF] at hx
    | cons t ts => simp [topicCountsF] at hx
  | succ f ih =>
    intro l x hx
    cases l with
    | nil => simp [topicCountsF] at hx
    | cons t ts =>
      simp only [topicCountsF, List.mem_cons] at hx
      rcases hx with rfl | hx
      · simp
      · have h1 := ih _ x hx
        have h2 := List.mem_filter.mp h1
        exact List.mem_cons_of_mem _ h2.1

/-- firstIdx of the head element. -/
theorem firstIdx_cons_self (t : String) (ts : List String) :
    firstIdx (t :: ts) t = 0 := by
  simp [firstIdx]

/-- firstIdx below a distinct head element. -/
theorem firstIdx_cons_ne (t b : String) (ts : List String) (h : t ≠ b) :
    firstIdx (t :: ts) b = 1 + firstIdx ts b := by
  simp [firstIdx, h]

/-- A strict firstIdx ordering inside a filtered list transfers to the
unfiltered list. -/
theorem firstIdx_filter_lt (p : String → Bool) (ts : List String) (u v : String)
    (hu : u ∈ ts.filter p) (hv : v ∈ ts.filter p)
    (h : firstIdx (ts.filter p) u < firstIdx (ts.filter p) v) :
    firstIdx ts u < firstIdx ts v := by
  induction ts with
  | nil => simp at hu
  | cons w ws ih =>
    by_cases hpw : p w = true
    · have hf : (w :: ws).filter p = w :: ws.filter p := by
        simp [List.filter_cons, hpw]
      rw [hf] at hu hv h
      by_cases hvw : w = v
      · subst hvw
        rw [firstIdx_cons_self] at h
        omega
      · by_cases huw : w = u
        · subst huw
          rw [firstIdx_cons_self, firstIdx_cons_ne _ _ _ hvw]
          omega
        · rw [firstIdx_cons_ne _ _ _ huw, firstIdx_cons_ne _ _ _ hvw] at h
          rw [firstIdx_cons_ne _ _ _ huw, firstIdx_cons_ne _ _ _ hvw]
          have hu2 : u ∈ ws.filter p := by
            rcases List.mem_cons.mp hu with rfl | h2
            · exact absurd rfl huw
            · exact h2
          have hv2 : v ∈ ws.filter p := by
            rcases List.mem_cons.mp hv with rfl | h2
            · exact absurd rfl hvw
            · exact h2
          have := ih hu2 hv2 (by omega)
          omega
    · have hf : (w :: ws).filter p = ws.filter p := by
        simp [List.filter_cons, hpw]
      rw [hf] at hu hv h
      have hpu := (List.mem_filter.mp hu).2
      have hpv := (List.mem_filter.mp hv).2
      have huw : w ≠ u := by
        intro he
        rw [he] at hpw
        exact hpw hpu
      have hvw : w ≠ v := by
        intro he
        rw [he] at hpw
        exact hpw hpv
      rw [firstIdx_cons_ne _ _ _ huw, firstIdx_cons_ne _ _ _ hvw]
      have := ih hu hv h
      omega

/-- The topic tally lists its keys in first-seen order. -/
theorem topicCountsF_pairwise (fuel : Nat) :
    ∀ (l : List String), (topicCountsF fuel l).Pairwise
      (fun a b => firstIdx l a.1 < firstIdx l b.1) := by
  induction fuel with
  | zero =>
    intro l
    cases l with
    | nil => simp [topicCountsF]
    | cons t ts => simp [topicCountsF]
  | succ f ih =>
    intro l
    cases l with
    | nil => simp [topicCountsF]
    | cons t ts =>
      rw [show topicCountsF (f + 1) (t :: ts)
        = (t, 1 + ts.count t)
          :: topicCountsF f (ts.filter (fun u => decide (u ≠ t))) from rfl]
      refine List.pairwise_cons.mpr ⟨?_, ?_⟩
      · intro b hb
        have hb1 : b.1 ∈ ts.filter (fun u => decide (u ≠ t)) :=
          topicCountsF_keys_mem f _ b hb
        have hbt : t ≠ b.1 := by
          have h2 := (List.mem_filter.mp hb1).2
          simp at h2
          exact fun he => h2 he.symm
        rw [firstIdx_cons_self, firstIdx_cons_ne _ _ _ hbt]
        omega
      · have hp := ih (ts.filter (fun u => decide (u ≠ t)))
        refine List.Pairwise.imp_of_mem ?_ hp
        intro a b ha hb hab
        have ha1 := topicCountsF_keys_mem f _ a ha
        have hb1 := topicCountsF_keys_mem f _ b hb
        have hat : t ≠ a.1 := by
          have h2 := (List.mem_filter.mp ha1).2
          simp at h2
          exact fun he => h2 he.symm
        have hbt : t ≠ b.1 := by
          have h2 := (List.mem_filter.mp hb1).2
          simp at h2
          exact fun he => h2 he.symm
        rw [firstIdx_cons_ne _ _ _ hat, firstIdx_cons_ne _ _ _ hbt]
        have := firstIdx_filter_lt _ ts a.1 b.1 ha1 hb1 hab
        omega

/-- Each entry of the topic tally carries the total occurrence count of
its key. -/
theorem topicCountsF_counts (fuel : Nat) :
    ∀ (l : List String), ∀ x ∈ topicCountsF fuel l, x.2 = l.count x.1 := by
  induction fuel with
  | zero =>
    intro l x hx
    cases l with
    | nil => simp [topicCountsF] at hx
    | cons t ts => simp [topicCountsF] at hx
  | succ f ih =>
    intro l x hx
    cases l with
    | nil => simp [topicCountsF] at hx
    | cons t ts =>
      simp only [topicCountsF, List.mem_cons] at hx
      rcases hx with rfl | hx
      · simp [List.count_cons_self]
        omega
      · have hkey := topicCountsF_keys_mem f _ x hx
        have hne : x.1 ≠ t := by
          have h2 := (List.mem_filter.mp hkey).2
          simpa using h2
        have hc := ih _ x hx
        rw [hc, List.count_cons_of_ne hne]
        exact List.count_filter (by simpa using hne)

/-- C8: the top-topics statistic has at most 10 entries, each pairing a
topic with its total frequency across the articles, ordered by frequency
descending; entries of equal frequency appear in the order in which their
topics first occur across the articles' topic lists. -/
theorem extract_top_topics_spec (articles : List AArticle) :
    (extract_top_topics articles).length ≤ 10 ∧
    (extract_top_topics articles).Pairwise (fun a b => b.2 ≤ a.2) ∧
    (extract_top_topics articles).Pairwise (fun a b => a.2 = b.2 →
      firstIdx (allTopicsOf articles) a.1
        < firstIdx (allTopicsOf articles) b.1) ∧
    (∀ x ∈ extract_top_topics articles,
      x.2 = (allTopicsOf articles).count x.1) := by
  have hp := sortByCountDesc_pairwise
    (fun x => firstIdx (allTopicsOf articles) x.1)
    (topicCounts (allTopicsOf articles))
    (topicCountsF_pairwise (allTopicsOf articles).length (allTopicsOf articles))
  have hs := List.Pairwise.sublist
    (List.take_sublist 10 (sortByCountDesc (topicCounts (allTopicsOf articles))))
    hp
  refine ⟨List.length_take_le _ _, hs.imp ?_, hs.imp ?_, ?_⟩
  · intro a b hab
    rcases hab with h1 | ⟨h1, _⟩
    · omega
    · omega
  · intro a b hab heq
    rcases hab with h1 | ⟨h1, h2⟩
    · omega
    · exact h2
  · intro x hx
    have h1 : x ∈ sortByCountDesc (topicCounts (allTopicsOf articles)) :=
      List.take_subset 10 _ hx
    have h2 := (sortByCountDesc_mem x _).mp h1
    exact topicCountsF_counts _ _ x h2

/-- Witness for C8 at a concrete article list. -/
theorem extract_top_topics_spec_witness :
    (extract_top_topics [⟨none, ["a", "b", "a"], 0, "c"⟩]).length ≤ 10 ∧
    (extract_top_topics [⟨none, ["a", "b", "a"], 0, "c"⟩]).Pairwise
      (fun a b => b.2 ≤ a.2) :=
  ⟨(extract_top_topics_spec [⟨none, ["a", "b", "a"], 0, "c"⟩]).1,
   (extract_top_topics_spec [⟨none, ["a", "b", "a"], 0, "c"⟩]).2.1⟩
